import Mathlib

/-!
Shallow embedding of the pane / merge-queue orchestration logic of the `vv`
frontend (`src/frontend/src`).  Pure fragments of the TypeScript source are
translated into executable Lean definitions; the asynchronous merge-queue
processing of `App.tsx` is modelled as a small-step transition system whose
atomic steps are the synchronous segments of the JavaScript event loop
(the code suspends only at `await` points).
-/

namespace VV

/-- `Pane` record, from `src/frontend/src/types.ts`. -/
structure Pane where
  pane_id : Nat
  active : Bool
  branch : Option String
  is_ahead : Bool
  is_stale : Bool
  agent_running : Bool
  is_updating : Bool
  is_merging : Bool
  title : Option String
deriving DecidableEq

/-- `MergeQueueItem` record, from `src/frontend/src/types.ts`. -/
structure MergeQueueItem where
  pane_id : Nat
  status : String
deriving DecidableEq

/-- The merge-queue related component state of `App` (`App.tsx`):
the `mergeQueue` list and the `isMerging` flag. -/
structure AppState where
  mergeQueue : List MergeQueueItem
  isMerging : Bool
deriving DecidableEq

/-- `handleMerge` (`App.tsx`): add to merge queue if not already there. -/
def handleMerge (mergeQueue : List MergeQueueItem) (paneId : Nat) :
    List MergeQueueItem :=
  if mergeQueue.any (fun m => m.pane_id == paneId) then mergeQueue
  else mergeQueue ++ [{ pane_id := paneId, status := "queued" }]

/-- The synchronous prefix of `processMergeQueue` (`App.tsx`): the guard
`if (mergeQueue.length === 0 || isMerging) return;`, then `setIsMerging(true)`
and the capture of `currentItem = mergeQueue[0]`.  Returns the new state and
the item whose merge is attempted (`none` when the guard bails out). -/
def processStart (s : AppState) : AppState × Option MergeQueueItem :=
  if s.mergeQueue.length == 0 || s.isMerging then (s, none)
  else ({ s with isMerging := true }, s.mergeQueue.head?)

/-- The completion of `processMergeQueue` after the awaited
`apiClient.mergePane` settles.  On success the item is removed
(`setMergeQueue((prev) => prev.slice(1))`); on error the `catch` branch
removes it as well ("Still remove from queue to continue processing");
the `finally` branch clears the flag (`setIsMerging(false)`). -/
def processFinish (mergeFailed : Bool) (s : AppState) : AppState :=
  if mergeFailed then { mergeQueue := s.mergeQueue.drop 1, isMerging := false }
  else { mergeQueue := s.mergeQueue.drop 1, isMerging := false }

/-- Instrumented state: the app state plus ghost logs — the pane ids whose
merge attempt is currently in flight, the attempts started so far (in start
order), and the pane ids actually appended to the queue (in enqueue order). -/
structure TraceState where
  app : AppState
  inFlight : List Nat
  started : List Nat
  enqueued : List Nat

/-- Effect of a `handleMerge(pid)` call on the instrumented state; the
enqueue log records the pane id exactly when the code appends it. -/
def enqueueTrace (pid : Nat) (t : TraceState) : TraceState :=
  { app := { mergeQueue := handleMerge t.app.mergeQueue pid,
             isMerging := t.app.isMerging },
    inFlight := t.inFlight
    started := t.started
    enqueued :=
      if t.app.mergeQueue.any (fun m => m.pane_id == pid) then t.enqueued
      else t.enqueued ++ [pid] }

/-- Effect of the synchronous prefix of `processMergeQueue` when its guard
passes and the head item `m` enters its merge attempt. -/
def startTrace (m : MergeQueueItem) (t : TraceState) : TraceState :=
  { app := (processStart t.app).1,
    inFlight := t.inFlight ++ [m.pane_id]
    started := t.started ++ [m.pane_id]
    enqueued := t.enqueued }

/-- Effect of the completion of `processMergeQueue` (the in-flight attempt
settles, successfully or not). -/
def finishTrace (mergeFailed : Bool) (t : TraceState) : TraceState :=
  { app := processFinish mergeFailed t.app,
    inFlight := t.inFlight.drop 1
    started := t.started
    enqueued := t.enqueued }

/-- Small-step transition relation of the merge-queue subsystem of `App.tsx`.
`start` requires the guard of `processMergeQueue` (non-empty queue, clear
flag), as re-checked inside the function; `finish` can only settle an
attempt while the flag is held. -/
inductive Step : TraceState → TraceState → Prop where
  | enqueue (t : TraceState) (pid : Nat) : Step t (enqueueTrace pid t)
  | start (t : TraceState) (m : MergeQueueItem)
      (hd : t.app.mergeQueue.head? = some m)
      (hm : t.app.isMerging = false) : Step t (startTrace m t)
  | finish (t : TraceState) (mergeFailed : Bool)
      (hm : t.app.isMerging = true) : Step t (finishTrace mergeFailed t)

/-- Initial state: `useState` initialises `mergeQueue` to `[]` and
`isMerging` to `false`. -/
def initTrace : TraceState :=
  { app := { mergeQueue := [], isMerging := false },
    inFlight := [], started := [], enqueued := [] }

/-- States reachable from the initial app state. -/
inductive Reachable : TraceState → Prop where
  | init : Reachable initTrace
  | step {t t' : TraceState} : Reachable t → Step t t' → Reachable t'

/-- Pane ids still awaiting a merge attempt: the whole queue, minus the head
when its attempt is already in flight. -/
def pendingIds (t : TraceState) : List Nat :=
  (if t.app.isMerging then t.app.mergeQueue.drop 1 else t.app.mergeQueue).map
    MergeQueueItem.pane_id

/-- Inductive invariant of the merge-queue subsystem. -/
def Inv (t : TraceState) : Prop :=
  t.inFlight.length ≤ 1
  ∧ (t.app.isMerging = false → t.inFlight = [])
  ∧ (t.app.isMerging = true →
      ∃ m, t.app.mergeQueue.head? = some m ∧ t.inFlight = [m.pane_id])
  ∧ t.started ++ pendingIds t = t.enqueued
  ∧ (t.app.mergeQueue.map MergeQueueItem.pane_id).Nodup
  ∧ (∀ m ∈ t.app.mergeQueue, m.status = "queued")

/-- Example state: the instrumented state right after a `handleMerge(1)`
call from the initial state. -/
def exEnqueued1 : TraceState := enqueueTrace 1 initTrace

/-- Example state: pane 1's merge attempt has started from `exEnqueued1`. -/
def exStarted1 : TraceState :=
  startTrace { pane_id := 1, status := "queued" } exEnqueued1

/-- Example pane: active and idle on its branch. -/
def exPaneActive : Pane :=
  { pane_id := 1, active := true, branch := some "tmp-1-aaaaaa",
    is_ahead := false, is_stale := false, agent_running := false,
    is_updating := false, is_merging := false, title := none }

/-- Example pane: inactive (back on trunk, id free for reuse). -/
def exPaneInactive : Pane :=
  { pane_id := 2, active := false, branch := none, is_ahead := false,
    is_stale := false, agent_running := false, is_updating := false,
    is_merging := false, title := none }

/-- Example pane: active with the change agent running. -/
def exPaneAgentRunning : Pane :=
  { pane_id := 2, active := true, branch := some "tmp-2-bbbbbb",
    is_ahead := false, is_stale := false, agent_running := true,
    is_updating := false, is_merging := false, title := none }

/-- Example pane: active, ahead of trunk and queued for merge. -/
def exPaneQueued : Pane :=
  { pane_id := 3, active := true, branch := some "tmp-3-cccccc",
    is_ahead := true, is_stale := false, agent_running := false,
    is_updating := false, is_merging := false, title := none }

/-- `canAdd` (`FloatingControls.tsx`): the add-pane button is rendered only
when `activePaneCount < 6`. -/
def canAdd (activePaneCount : Nat) : Bool :=
  activePaneCount < 6

/-- `showRemove` (`FloatingControls.tsx`): the remove-pane button is rendered
only when `activePaneCount > 1`. -/
def showRemove (activePaneCount : Nat) : Bool :=
  activePaneCount > 1

/-- `handleAddPane` (`App.tsx`): find the first inactive pane; if none,
log "No available panes" and issue no request, else request
`createPane(inactivePaneIds[0])`.  The result is the pane id of the
issued create request, if any. -/
def handleAddPane (panes : List Pane) : Option Nat :=
  let inactivePaneIds := (panes.filter (fun p => !p.active)).map
    (fun p => p.pane_id)
  if inactivePaneIds.length == 0 then none
  else inactivePaneIds.head?

/-- `handleRemovePane` (`App.tsx`): find the last active pane that is not
running an agent and not in the merge queue (sort by descending `pane_id`,
take the first); if none, issue no request, else request
`deletePane(paneToRemove.pane_id)`.  The result is the pane id of the
issued delete request, if any. -/
def handleRemovePane (panes : List Pane) (mergeQueue : List MergeQueueItem) :
    Option Nat :=
  let removablePanes :=
    (((panes.filter (fun p => p.active && !p.agent_running)).filter
        (fun p => !(mergeQueue.any (fun m => m.pane_id == p.pane_id)))).mergeSort
      (fun a b => b.pane_id ≤ a.pane_id))
  if removablePanes.length == 0 then none
  else (removablePanes.head?).map (fun p => p.pane_id)

/-- Whitespace-trimming of JavaScript's `String.prototype.trim`, modelled
over the character list (leading and trailing whitespace removed). -/
def jsTrim (s : String) : String :=
  ⟨((s.data.dropWhile Char.isWhitespace).reverse.dropWhile
      Char.isWhitespace).reverse⟩

/-- `handleSubmit` (`FloatingWindow.tsx`): the guard
`if (!prompt.trim() || isSubmitting || isStreaming || !canInteract) return;`
bails out without calling `apiClient.startAgent`; otherwise the start-agent
request `(paneId, prompt)` is issued. -/
def handleSubmitRequest (paneId : Nat) (prompt : String)
    (isSubmitting isStreaming canInteract : Bool) : Option (Nat × String) :=
  if jsTrim prompt == "" || isSubmitting || isStreaming || !canInteract then
    none
  else some (paneId, prompt)

/-- `canInteract` (`Tile.tsx`): a pane can be interacted with only when no
agent is running, it is not in the merge queue, and it is neither updating
nor merging. -/
def canInteract (pane : Pane) (isInMergeQueue : Bool) : Bool :=
  !pane.agent_running && !isInMergeQueue && !pane.is_updating &&
    !pane.is_merging

/-- The Keep (merge) button of `Tile.tsx` is rendered only inside the
`canInteract` block and only when the pane `is_ahead`. -/
def showKeep (pane : Pane) (isInMergeQueue : Bool) : Bool :=
  canInteract pane isInMergeQueue && pane.is_ahead

/-- The per-stream state of `useAgentStream` (`useAgentStream.ts`):
the collected `messages`, the `isStreaming` flag, whether `es.close()` has
been called, and how often the `onComplete` callback has fired.
`startStreaming` resets to empty messages with streaming on. -/
structure StreamState where
  messages : List String
  isStreaming : Bool
  closed : Bool
  completeCount : Nat
deriving DecidableEq

/-- State set up by `startStreaming` (`useAgentStream.ts`):
`setMessages([]); setIsStreaming(true)` with a fresh (open) EventSource. -/
def streamStart : StreamState :=
  { messages := [], isStreaming := true, closed := false, completeCount := 0 }

/-- The `es.onmessage` handler (`useAgentStream.ts`): on `"[DONE]"` the
connection is closed, streaming ends and `onComplete` fires; otherwise the
chunk is appended.  A closed EventSource delivers no further events, so a
closed state absorbs messages. -/
def onMessage (s : StreamState) (data : String) : StreamState :=
  if s.closed then s
  else if data == "[DONE]" then
    { s with closed := true, isStreaming := false,
             completeCount := s.completeCount + 1 }
  else { s with messages := s.messages ++ [data] }

/-- Processing of a whole sequence of events arriving on the stream. -/
def runStream (events : List String) : StreamState :=
  events.foldl onMessage streamStart

/-- The dedup-enqueue at the beginning of `handleKeep` (`App.tsx`, revision
with keep/discard): add to merge queue only if not already there. -/
def handleKeepEnqueue (mergeQueue : List MergeQueueItem) (paneId : Nat) :
    List MergeQueueItem :=
  if mergeQueue.any (fun m => m.pane_id == paneId) then mergeQueue
  else mergeQueue ++ [{ pane_id := paneId, status := "queued" }]

/-- `maxAttempts = 30` in `waitForMerge` inside `handleKeep`. -/
def maxAttempts : Nat := 30

/-- The polling loop of `waitForMerge` inside `handleKeep`: one iteration
per second while `attempts < maxAttempts`; each iteration observes
`state.panes.find((p) => p.pane_id === paneId)` (the observation at attempt
`k` is `obs k`); when the pane is observed inactive, `createPane` is called
and the loop returns.  The result is `some k` when the create-pane request
is issued at attempt `k`, and `none` on timeout (only a warning is logged).
`fuel` counts the remaining iterations, `maxAttempts - attempts`. -/
def waitForMergeLoop (obs : Nat → Option Pane) : Nat → Nat → Option Nat
  | _, 0 => none
  | attempts, fuel + 1 =>
    match obs attempts with
    | some pane =>
      if !pane.active then some attempts
      else waitForMergeLoop obs (attempts + 1) fuel
    | none => waitForMergeLoop obs (attempts + 1) fuel

/-- `waitForMerge` (`handleKeep`): start at `attempts = 0` with
`maxAttempts` iterations available. -/
def waitForMerge (obs : Nat → Option Pane) : Option Nat :=
  waitForMergeLoop obs 0 maxAttempts

/-- The poll at attempt `k` saw the pane back on trunk:
`pane && !pane.active`. -/
def observedInactive (obs : Nat → Option Pane) (k : Nat) : Prop :=
  ∃ p, obs k = some p ∧ p.active = false

instance (obs : Nat → Option Pane) (k : Nat) :
    Decidable (observedInactive obs k) := by
  unfold observedInactive
  cases h : obs k with
  | none => exact .isFalse (by simp [h])
  | some p =>
    cases ha : p.active with
    | false => exact .isTrue ⟨p, rfl, ha⟩
    | true => exact .isFalse (by simp [h, ha])

theorem processFinish_eq (mergeFailed : Bool) (s : AppState) :
    processFinish mergeFailed s =
      { mergeQueue := s.mergeQueue.drop 1, isMerging := false } := by
  cases mergeFailed <;> rfl

theorem inv_init : Inv initTrace := by
  refine ⟨by simp [initTrace], by simp [initTrace], ?_, by simp [initTrace, pendingIds], by simp [initTrace], by simp [initTrace]⟩
  intro h
  simp [initTrace] at h

theorem enqueueTrace_pos {t : TraceState} {pid : Nat}
    (h : t.app.mergeQueue.any (fun m => m.pane_id == pid) = true) :
    enqueueTrace pid t = t := by
  simp [enqueueTrace, handleMerge, h]

theorem enqueueTrace_neg {t : TraceState} {pid : Nat}
    (h : t.app.mergeQueue.any (fun m => m.pane_id == pid) = false) :
    enqueueTrace pid t =
      { app := { mergeQueue :=
                   t.app.mergeQueue ++ [{ pane_id := pid, status := "queued" }],
                 isMerging := t.app.isMerging },
        inFlight := t.inFlight
        started := t.started
        enqueued := t.enqueued ++ [pid] } := by
  simp [enqueueTrace, handleMerge, h]

theorem processStart_pos {s : AppState} (hq : s.mergeQueue ≠ [])
    (hm : s.isMerging = false) :
    processStart s = ({ s with isMerging := true }, s.mergeQueue.head?) := by
  simp [processStart, hm, List.length_eq_zero, hq]

theorem inv_step {t t' : TraceState} (hInv : Inv t) (hs : Step t t') :
    Inv t' := by
  obtain ⟨h1, h2, h3, h4, h5, h6⟩ := hInv
  cases hs with
  | enqueue pid =>
    by_cases hq : t.app.mergeQueue.any (fun m => m.pane_id == pid) = true
    · rw [enqueueTrace_pos hq]
      exact ⟨h1, h2, h3, h4, h5, h6⟩
    · rw [Bool.not_eq_true] at hq
      rw [enqueueTrace_neg hq]
      have hnot : ∀ m ∈ t.app.mergeQueue, m.pane_id ≠ pid := by
        intro m hm
        have := List.any_eq_false.mp hq m hm
        simpa using this
      refine ⟨h1, h2, ?_, ?_, ?_, ?_⟩
      · intro hm
        obtain ⟨m, hm1, hm2⟩ := h3 hm
        exact ⟨m, by simp [List.head?_append, hm1], hm2⟩
      · have hpend : pendingIds
            { app := { mergeQueue :=
                         t.app.mergeQueue ++
                           [{ pane_id := pid, status := "queued" }],
                       isMerging := t.app.isMerging },
              inFlight := t.inFlight
              started := t.started
              enqueued := t.enqueued ++ [pid] } = pendingIds t ++ [pid] := by
          unfold pendingIds
          cases hm : t.app.isMerging with
          | false => simp
          | true =>
            obtain ⟨m, hm1, _⟩ := h3 hm
            have hne : t.app.mergeQueue ≠ [] := by
              intro hnil
              rw [hnil] at hm1
              simp at hm1
            have hlen : 1 ≤ t.app.mergeQueue.length := by
              cases hq2 : t.app.mergeQueue with
              | nil => exact absurd hq2 hne
              | cons a as => simp
            simp [List.drop_append_of_le_length hlen]
        rw [hpend, ← List.append_assoc, h4]
      · simp only [List.map_append, List.map_cons, List.map_nil]
        rw [List.nodup_append]
        refine ⟨h5, by simp, ?_⟩
        intro a ha hb
        simp only [List.mem_singleton] at hb
        obtain ⟨m, hm1, hm2⟩ := List.mem_map.mp ha
        exact hnot m hm1 (hm2.trans hb)
      · intro m hm
        rcases List.mem_append.mp hm with h | h
        · exact h6 m h
        · simp only [List.mem_singleton] at h
          rw [h]
  | start m hd hm =>
    have hne : t.app.mergeQueue ≠ [] := by
      intro hnil
      rw [hnil] at hd
      simp at hd
    have hfl : t.inFlight = [] := h2 hm
    have hps := processStart_pos hne hm
    cases hq : t.app.mergeQueue with
    | nil => exact absurd hq hne
    | cons a as =>
      have hma : m = a := by
        rw [hq] at hd
        simpa using hd.symm
      subst hma
      have happ : (startTrace m t).app = { mergeQueue := m :: as, isMerging := true } := by
        simp [startTrace, hps, hq]
      refine ⟨?_, ?_, ?_, ?_, ?_, ?_⟩
      · simp [startTrace, hfl]
      · intro hcontra
        rw [happ] at hcontra
        simp at hcontra
      · intro _
        refine ⟨m, ?_, ?_⟩
        · rw [happ]
          rfl
        · simp [startTrace, hfl]
      · show (startTrace m t).started ++ pendingIds (startTrace m t) = (startTrace m t).enqueued
        have hp : pendingIds (startTrace m t) = as.map MergeQueueItem.pane_id := by
          unfold pendingIds
          rw [happ]
          simp
        rw [hp]
        have hstarted : (startTrace m t).started = t.started ++ [m.pane_id] := rfl
        have henq : (startTrace m t).enqueued = t.enqueued := rfl
        rw [hstarted, henq, List.append_assoc]
        have hpold : pendingIds t = m.pane_id :: as.map MergeQueueItem.pane_id := by
          unfold pendingIds
          rw [hm, hq]
          simp
        simp only [List.singleton_append]
        rw [← hpold]
        exact h4
      · rw [happ]
        rw [hq] at h5
        exact h5
      · rw [happ]
        rw [hq] at h6
        exact h6
  | finish mergeFailed hm =>
    obtain ⟨m, hm1, hm2⟩ := h3 hm
    have hne : t.app.mergeQueue ≠ [] := by
      intro hnil
      rw [hnil] at hm1
      simp at hm1
    cases hq : t.app.mergeQueue with
    | nil => exact absurd hq hne
    | cons a as =>
      have hma : m = a := by
        rw [hq] at hm1
        simpa using hm1.symm
      subst hma
      have happ : (finishTrace mergeFailed t).app = { mergeQueue := as, isMerging := false } := by
        simp [finishTrace, processFinish_eq, hq]
      refine ⟨?_, ?_, ?_, ?_, ?_, ?_⟩
      · simp [finishTrace, hm2]
      · intro _
        simp [finishTrace, hm2]
      · intro hcontra
        rw [happ] at hcontra
        simp at hcontra
      · show (finishTrace mergeFailed t).started ++ pendingIds (finishTrace mergeFailed t) = (finishTrace mergeFailed t).enqueued
        have hp : pendingIds (finishTrace mergeFailed t) = as.map MergeQueueItem.pane_id := by
          unfold pendingIds
          rw [happ]
          simp
        have hpold : pendingIds t = as.map MergeQueueItem.pane_id := by
          unfold pendingIds
          rw [hm, hq]
          simp
        rw [hp]
        have hstarted : (finishTrace mergeFailed t).started = t.started := rfl
        have henq : (finishTrace mergeFailed t).enqueued = t.enqueued := rfl
        rw [hstarted, henq, ← hpold]
        exact h4
      · rw [happ]
        rw [hq] at h5
        simp only [List.map_cons] at h5
        exact h5.of_cons
      · rw [happ]
        intro x hx
        exact h6 x (by rw [hq]; exact List.mem_cons_of_mem m hx)

theorem reachable_inv {t : TraceState} (h : Reachable t) : Inv t := by
  induction h with
  | init => exact inv_init
  | step _ hs ih => exact inv_step ih hs

theorem queue_progress {t : TraceState} (hq : t.app.mergeQueue ≠ []) :
    ∃ t', Step t t' := by
  cases hm : t.app.isMerging with
  | true => exact ⟨_, Step.finish t true hm⟩
  | false =>
    cases hqq : t.app.mergeQueue with
    | nil => exact absurd hqq hq
    | cons a as =>
      exact ⟨_, Step.start t a (by rw [hqq]; rfl) hm⟩

theorem started_growth {t t' : TraceState} (hs : Step t t')
    (hne : t'.started ≠ t.started) : t.app.isMerging = false := by
  cases hs with
  | enqueue pid => exact absurd rfl hne
  | start m hd hm => exact hm
  | finish b hm => exact absurd rfl hne

theorem onMessage_closed {s : StreamState} (h : s.closed = true)
    (d : String) : onMessage s d = s := by
  simp [onMessage, h]

theorem foldl_onMessage_closed {s : StreamState} (h : s.closed = true) :
    ∀ evs : List String, evs.foldl onMessage s = s := by
  intro evs
  induction evs with
  | nil => rfl
  | cons d ds ih =>
    rw [List.foldl_cons, onMessage_closed h]
    exact ih

theorem foldl_onMessage_open (evs : List String) :
    ∀ s : StreamState, s.closed = false →
    (evs.foldl onMessage s).messages =
        s.messages ++ evs.takeWhile (fun d => !(d == "[DONE]"))
    ∧ (if "[DONE]" ∈ evs
       then (evs.foldl onMessage s).closed = true
            ∧ (evs.foldl onMessage s).isStreaming = false
            ∧ (evs.foldl onMessage s).completeCount = s.completeCount + 1
       else (evs.foldl onMessage s).closed = false
            ∧ (evs.foldl onMessage s).isStreaming = s.isStreaming
            ∧ (evs.foldl onMessage s).completeCount = s.completeCount) := by
  induction evs with
  | nil => intro s h; simp [h]
  | cons d ds ih =>
    intro s h
    by_cases hd : d = "[DONE]"
    · subst hd
      have hstep : onMessage s "[DONE]" =
          { s with closed := true, isStreaming := false,
                   completeCount := s.completeCount + 1 } := by
        simp [onMessage, h]
      rw [List.foldl_cons, hstep, foldl_onMessage_closed rfl]
      constructor
      · simp [List.takeWhile_cons]
      · simp
    · have hbeq : (d == "[DONE]") = false := by
        simp [hd]
      have hstep : onMessage s d = { s with messages := s.messages ++ [d] } := by
        simp [onMessage, h, hbeq]
      rw [List.foldl_cons, hstep]
      obtain ⟨ih1, ih2⟩ := ih { s with messages := s.messages ++ [d] } h
      constructor
      · rw [ih1]
        simp [List.takeWhile_cons, hbeq]
      · have hmem : ("[DONE]" ∈ d :: ds) ↔ ("[DONE]" ∈ ds) := by
          simp [List.mem_cons]
          intro hcontra
          exact absurd hcontra.symm hd
        by_cases hin : "[DONE]" ∈ ds
        · rw [if_pos (hmem.mpr hin)]
          rw [if_pos hin] at ih2
          exact ih2
        · rw [if_neg (fun hc => hin (hmem.mp hc))]
          rw [if_neg hin] at ih2
          exact ih2

theorem not_observedInactive_of_obs {obs : Nat → Option Pane} {k : Nat}
    (h : ∀ p, obs k = some p → p.active = true) :
    ¬ observedInactive obs k := by
  rintro ⟨p, hp, hact⟩
  rw [h p hp] at hact
  cases hact

theorem waitForMergeLoop_none_iff (obs : Nat → Option Pane) :
    ∀ (fuel attempts : Nat),
      waitForMergeLoop obs attempts fuel = none ↔
        ∀ k, attempts ≤ k → k < attempts + fuel →
          ¬ observedInactive obs k := by
  intro fuel
  induction fuel with
  | zero =>
    intro attempts
    constructor
    · intro _ k hk1 hk2
      omega
    · intro _
      rfl
  | succ fuel ih =>
    intro attempts
    unfold waitForMergeLoop
    cases ho : obs attempts with
    | some pane =>
      cases ha : pane.active with
      | false =>
        simp only [ha, Bool.not_false, if_true]
        constructor
        · intro hcontra
          cases hcontra
        · intro hall
          exact absurd ⟨pane, ho, ha⟩
            (hall attempts (Nat.le_refl _) (by omega))
      | true =>
        have hP : ¬ observedInactive obs attempts := by
          apply not_observedInactive_of_obs
          intro p hp
          rw [ho] at hp
          cases hp
          exact ha
        simp only [ha, Bool.not_true, Bool.false_eq_true, if_false]
        rw [ih (attempts + 1)]
        constructor
        · intro hall k hk1 hk2
          rcases Nat.eq_or_lt_of_le hk1 with heq | hlt
          · rw [← heq]
            exact hP
          · exact hall k hlt (by omega)
        · intro hall k hk1 hk2
          exact hall k (by omega) (by omega)
    | none =>
      have hP : ¬ observedInactive obs attempts := by
        apply not_observedInactive_of_obs
        intro p hp
        rw [ho] at hp
        cases hp
      rw [ih (attempts + 1)]
      constructor
      · intro hall k hk1 hk2
        rcases Nat.eq_or_lt_of_le hk1 with heq | hlt
        · rw [← heq]
          exact hP
        · exact hall k hlt (by omega)
      · intro hall k hk1 hk2
        exact hall k (by omega) (by omega)

theorem waitForMergeLoop_some (obs : Nat → Option Pane) :
    ∀ (fuel attempts k : Nat),
      waitForMergeLoop obs attempts fuel = some k →
        attempts ≤ k ∧ k < attempts + fuel ∧ observedInactive obs k
        ∧ ∀ j, attempts ≤ j → j < k → ¬ observedInactive obs j := by
  intro fuel
  induction fuel with
  | zero =>
    intro attempts k h
    cases h
  | succ fuel ih =>
    intro attempts k h
    unfold waitForMergeLoop at h
    cases ho : obs attempts with
    | some pane =>
      rw [ho] at h
      cases ha : pane.active with
      | false =>
        simp only [ha, Bool.not_false, if_true] at h
        cases h
        refine ⟨Nat.le_refl _, by omega, ⟨pane, ho, ha⟩, ?_⟩
        intro j hj1 hj2
        omega
      | true =>
        have hP : ¬ observedInactive obs attempts := by
          apply not_observedInactive_of_obs
          intro p hp
          rw [ho] at hp
          cases hp
          exact ha
        simp only [ha, Bool.not_true, Bool.false_eq_true, if_false] at h
        obtain ⟨ih1, ih2, ih3, ih4⟩ := ih (attempts + 1) k h
        refine ⟨by omega, by omega, ih3, ?_⟩
        intro j hj1 hj2
        rcases Nat.eq_or_lt_of_le hj1 with heq | hlt
        · rw [← heq]
          exact hP
        · exact ih4 j hlt hj2
    | none =>
      rw [ho] at h
      have hP : ¬ observedInactive obs attempts := by
        apply not_observedInactive_of_obs
        intro p hp
        rw [ho] at hp
        cases hp
      obtain ⟨ih1, ih2, ih3, ih4⟩ := ih (attempts + 1) k h
      refine ⟨by omega, by omega, ih3, ?_⟩
      intro j hj1 hj2
      rcases Nat.eq_or_lt_of_le hj1 with heq | hlt
      · rw [← heq]
        exact hP
      · exact ih4 j hlt hj2

theorem head?_filter_eq_find? {α : Type _} (p : α → Bool) (l : List α) :
    (l.filter p).head? = l.find? p := by
  induction l with
  | nil => rfl
  | cons a as ih =>
    by_cases h : p a = true
    · simp [List.filter_cons, List.find?_cons, h]
    · rw [Bool.not_eq_true] at h
      simp [List.filter_cons, List.find?_cons, h, ih]

/-- C1: on every reachable state of the merge-queue subsystem, at most one
merge attempt is in flight, the merge-in-progress flag is held for the whole
attempt, an attempt can only start while the flag is clear, the attempts
started so far are an order-preserving prefix of the enqueue log, once the
queue has drained the attempts are exactly the enqueued panes in enqueue
order, and a non-empty queue always admits a further processing step. -/
theorem mergeQueue_serial_fifo (t : TraceState) (h : Reachable t) :
    t.inFlight.length ≤ 1
    ∧ (t.inFlight ≠ [] → t.app.isMerging = true)
    ∧ (∀ t', Step t t' → t'.started ≠ t.started → t.app.isMerging = false)
    ∧ (∃ rest, t.started ++ rest = t.enqueued)
    ∧ (t.app.mergeQueue = [] → t.started = t.enqueued)
    ∧ (t.app.mergeQueue ≠ [] → ∃ t', Step t t') := by
  obtain ⟨h1, h2, h3, h4, h5, h6⟩ := reachable_inv h
  refine ⟨h1, ?_, ?_, ⟨pendingIds t, h4⟩, ?_, ?_⟩
  · intro hfl
    cases hm : t.app.isMerging with
    | true => rfl
    | false => exact absurd (h2 hm) hfl
  · intro t' hs hne
    exact started_growth hs hne
  · intro hq
    have hp : pendingIds t = [] := by
      unfold pendingIds
      rw [hq]
      cases t.app.isMerging <;> simp
    rw [← h4, hp, List.append_nil]
  · intro hq
    exact queue_progress hq

theorem mergeQueue_serial_fifo_witness :
    exEnqueued1.inFlight.length ≤ 1
    ∧ (exEnqueued1.inFlight ≠ [] → exEnqueued1.app.isMerging = true)
    ∧ (∀ t', Step exEnqueued1 t' → t'.started ≠ exEnqueued1.started →
        exEnqueued1.app.isMerging = false)
    ∧ (∃ rest, exEnqueued1.started ++ rest = exEnqueued1.enqueued)
    ∧ (exEnqueued1.app.mergeQueue = [] →
        exEnqueued1.started = exEnqueued1.enqueued)
    ∧ (exEnqueued1.app.mergeQueue ≠ [] → ∃ t', Step exEnqueued1 t') :=
  mergeQueue_serial_fifo exEnqueued1
    (Reachable.step Reachable.init (Step.enqueue initTrace 1))

/-- C2: re-requesting a merge for a pane id already in the queue leaves the
queue unchanged (its length does not grow), and on every reachable state the
queue holds no pane id twice. -/
theorem merge_enqueue_idempotent (q : List MergeQueueItem) (pid : Nat)
    (t : TraceState) :
    (q.any (fun m => m.pane_id == pid) = true →
      handleMerge q pid = q ∧ (handleMerge q pid).length = q.length)
    ∧ (Reachable t →
        (t.app.mergeQueue.map MergeQueueItem.pane_id).Nodup) := by
  constructor
  · intro h
    refine ⟨?_, ?_⟩ <;> simp [handleMerge, h]
  · intro hr
    exact (reachable_inv hr).2.2.2.2.1

theorem merge_enqueue_idempotent_witness :
    handleMerge [{ pane_id := 1, status := "queued" }] 1 =
      [{ pane_id := 1, status := "queued" }]
    ∧ (exEnqueued1.app.mergeQueue.map MergeQueueItem.pane_id).Nodup :=
  ⟨((merge_enqueue_idempotent [{ pane_id := 1, status := "queued" }] 1
      exEnqueued1).1 (by decide)).1,
   (merge_enqueue_idempotent [{ pane_id := 1, status := "queued" }] 1
      exEnqueued1).2
     (Reachable.step Reachable.init (Step.enqueue initTrace 1))⟩

/-- C3: when the in-flight merge attempt fails, the completion step (the
`catch` branch of `processMergeQueue`) removes the head entry, clears the
merge-in-progress flag, and a non-empty remaining queue immediately admits
the next processing step — one failure never blocks the queue. -/
theorem failed_merge_advances (t : TraceState)
    (hm : t.app.isMerging = true) :
    Step t (finishTrace true t)
    ∧ (finishTrace true t).app.mergeQueue = t.app.mergeQueue.drop 1
    ∧ (finishTrace true t).app.isMerging = false
    ∧ ((finishTrace true t).app.mergeQueue ≠ [] →
        ∃ t', Step (finishTrace true t) t') := by
  refine ⟨Step.finish t true hm, ?_, ?_, ?_⟩
  · simp [finishTrace, processFinish_eq]
  · simp [finishTrace, processFinish_eq]
  · intro hq
    exact queue_progress hq

theorem failed_merge_advances_witness :
    Step exStarted1 (finishTrace true exStarted1)
    ∧ (finishTrace true exStarted1).app.mergeQueue =
        exStarted1.app.mergeQueue.drop 1
    ∧ (finishTrace true exStarted1).app.isMerging = false
    ∧ ((finishTrace true exStarted1).app.mergeQueue ≠ [] →
        ∃ t', Step (finishTrace true exStarted1) t') :=
  failed_merge_advances exStarted1 (by decide)

/-- C4 (amended): when the merge queue processor begins processing the head
entry it sets the merge-in-progress flag before attempting the merge, the
queue itself (and so every entry's status tag) is left unchanged, the
attempted item is the queue head, and every queued entry — the in-progress
one included — keeps the status tag `queued`; no entry ever carries a
`merging` status. -/
theorem start_sets_flag_not_status (t : TraceState) (h : Reachable t)
    (hq : t.app.mergeQueue ≠ []) (hm : t.app.isMerging = false) :
    (processStart t.app).1.isMerging = true
    ∧ (processStart t.app).1.mergeQueue = t.app.mergeQueue
    ∧ (processStart t.app).2 = t.app.mergeQueue.head?
    ∧ (∀ m ∈ (processStart t.app).1.mergeQueue, m.status = "queued")
    ∧ (∀ m ∈ (processStart t.app).1.mergeQueue, m.status ≠ "merging") := by
  have hps := processStart_pos hq hm
  have h6 := (reachable_inv h).2.2.2.2.2
  refine ⟨by rw [hps], by rw [hps], by rw [hps], ?_, ?_⟩
  · intro m hmem
    rw [hps] at hmem
    exact h6 m hmem
  · intro m hmem
    rw [hps] at hmem
    rw [h6 m hmem]
    decide

theorem start_sets_flag_not_status_witness :
    (processStart exEnqueued1.app).1.isMerging = true
    ∧ (processStart exEnqueued1.app).1.mergeQueue =
        exEnqueued1.app.mergeQueue
    ∧ (processStart exEnqueued1.app).2 = exEnqueued1.app.mergeQueue.head?
    ∧ (∀ m ∈ (processStart exEnqueued1.app).1.mergeQueue,
        m.status = "queued")
    ∧ (∀ m ∈ (processStart exEnqueued1.app).1.mergeQueue,
        m.status ≠ "merging") :=
  start_sets_flag_not_status exEnqueued1
    (Reachable.step Reachable.init (Step.enqueue initTrace 1))
    (by decide) (by decide)

theorem start_marks_merging_counterexample :
    (processStart { mergeQueue := [{ pane_id := 1, status := "queued" }],
                    isMerging := false }).1.isMerging = true
    ∧ ((processStart { mergeQueue := [{ pane_id := 1, status := "queued" }],
                       isMerging := false }).1.mergeQueue.head?).map
          MergeQueueItem.status = some "queued"
    ∧ ¬ (((processStart
            { mergeQueue := [{ pane_id := 1, status := "queued" }],
              isMerging := false }).1.mergeQueue.head?).map
          MergeQueueItem.status = some "merging") := by
  refine ⟨rfl, rfl, ?_⟩
  decide

/-- C5: a pane whose agent output stream is active rejects a new submit
(no start-agent request is issued while `isStreaming`), a pane whose
`agent_running` flag is set cannot be interacted with so its submit is also
rejected, and the Keep (merge) button is never rendered for such a pane. -/
theorem agent_busy_guard (paneId : Nat) (prompt : String)
    (isSubmitting isStreaming : Bool) (p : Pane) (inQueue : Bool)
    (h : p.agent_running = true) :
    handleSubmitRequest paneId prompt isSubmitting isStreaming
        (canInteract p inQueue) = none
    ∧ (∀ ci : Bool,
        handleSubmitRequest paneId prompt isSubmitting true ci = none)
    ∧ showKeep p inQueue = false := by
  have hci : canInteract p inQueue = false := by
    simp [canInteract, h]
  refine ⟨?_, ?_, ?_⟩
  · simp [handleSubmitRequest, hci]
  · intro ci
    simp [handleSubmitRequest]
  · simp [showKeep, hci]

theorem agent_busy_guard_witness :
    handleSubmitRequest 1 "add a button" false false
        (canInteract { pane_id := 1, active := true,
                       branch := some "tmp-1-abc123", is_ahead := true,
                       is_stale := false, agent_running := true,
                       is_updating := false, is_merging := false,
                       title := none } false) = none
    ∧ (∀ ci : Bool, handleSubmitRequest 1 "add a button" false true ci = none)
    ∧ showKeep { pane_id := 1, active := true,
                 branch := some "tmp-1-abc123", is_ahead := true,
                 is_stale := false, agent_running := true,
                 is_updating := false, is_merging := false,
                 title := none } false = false :=
  agent_busy_guard 1 "add a button" false false
    { pane_id := 1, active := true, branch := some "tmp-1-abc123",
      is_ahead := true, is_stale := false, agent_running := true,
      is_updating := false, is_merging := false, title := none } false rfl

/-- C6: the add-pane button is offered exactly while fewer than 6 panes are
active; with the backend's fixed pool (ids 1–6, at most 6 panes listed) at
most 6 panes are active, `handleAddPane` targets the first pane in list
order that is free (`find?` of the inactive predicate), any issued create
request names an id from the pool belonging to an inactive pane, and when
every pane is active no request is issued. -/
theorem pane_pool_bounded (panes : List Pane) (n : Nat)
    (hpool : ∀ p ∈ panes, 1 ≤ p.pane_id ∧ p.pane_id ≤ 6)
    (hlen : panes.length ≤ 6) :
    (canAdd n = true ↔ n < 6)
    ∧ (panes.filter (fun p => p.active)).length ≤ 6
    ∧ handleAddPane panes =
        (panes.find? (fun p => !p.active)).map (fun p => p.pane_id)
    ∧ (∀ pid, handleAddPane panes = some pid →
        (1 ≤ pid ∧ pid ≤ 6) ∧ ∃ p ∈ panes, p.pane_id = pid ∧ p.active = false)
    ∧ ((∀ p ∈ panes, p.active = true) → handleAddPane panes = none) := by
  have hkey : handleAddPane panes =
      (panes.find? (fun p => !p.active)).map (fun p => p.pane_id) := by
    rw [← head?_filter_eq_find?]
    unfold handleAddPane
    cases hf : panes.filter (fun p => !p.active) with
    | nil => simp [hf]
    | cons a as => simp [hf]
  refine ⟨?_, ?_, hkey, ?_, ?_⟩
  · simp [canAdd]
  · exact le_trans (List.length_filter_le _ _) hlen
  · intro pid hpid
    rw [hkey] at hpid
    obtain ⟨p, hp1, hp2⟩ := Option.map_eq_some'.mp hpid
    have hmem := List.mem_of_find?_eq_some hp1
    have hact := List.find?_some hp1
    refine ⟨?_, p, hmem, hp2, by simpa using hact⟩
    rw [← hp2]
    exact hpool p hmem
  · intro hall
    rw [hkey]
    have hfind : panes.find? (fun p => !p.active) = none := by
      rw [List.find?_eq_none]
      intro x hx
      simp [hall x hx]
    rw [hfind]
    rfl

theorem pane_pool_bounded_witness :
    (canAdd 1 = true ↔ 1 < 6)
    ∧ ([exPaneActive, exPaneInactive].filter (fun p => p.active)).length ≤ 6
    ∧ handleAddPane [exPaneActive, exPaneInactive] =
        ([exPaneActive, exPaneInactive].find? (fun p => !p.active)).map
          (fun p => p.pane_id)
    ∧ (∀ pid, handleAddPane [exPaneActive, exPaneInactive] = some pid →
        (1 ≤ pid ∧ pid ≤ 6)
        ∧ ∃ p ∈ [exPaneActive, exPaneInactive],
            p.pane_id = pid ∧ p.active = false)
    ∧ ((∀ p ∈ [exPaneActive, exPaneInactive], p.active = true) →
        handleAddPane [exPaneActive, exPaneInactive] = none) :=
  pane_pool_bounded [exPaneActive, exPaneInactive] 1
    (by decide) (by decide)

/-- C7: for every event sequence on the agent output stream, the displayed
message list is exactly the chunks before the first `"[DONE]"` terminator in
arrival order; when the terminator arrives the stream is closed, streaming
ends, the completion callback fires exactly once and later chunks are not
appended; without a terminator nothing completes and streaming stays on. -/
theorem stream_chunks_before_done (events : List String) :
    (runStream events).messages =
        events.takeWhile (fun d => !(d == "[DONE]"))
    ∧ ("[DONE]" ∈ events →
        (runStream events).closed = true
        ∧ (runStream events).isStreaming = false
        ∧ (runStream events).completeCount = 1)
    ∧ ("[DONE]" ∉ events →
        (runStream events).closed = false
        ∧ (runStream events).isStreaming = true
        ∧ (runStream events).completeCount = 0) := by
  obtain ⟨h1, h2⟩ := foldl_onMessage_open events streamStart rfl
  refine ⟨by simpa [streamStart, runStream] using h1, ?_, ?_⟩
  · intro hin
    rw [if_pos hin] at h2
    exact ⟨h2.1, h2.2.1, h2.2.2⟩
  · intro hout
    rw [if_neg hout] at h2
    exact ⟨h2.1, h2.2.1, h2.2.2⟩

theorem stream_chunks_before_done_witness :
    (runStream ["alpha", "beta", "[DONE]", "gamma"]).messages =
        (["alpha", "beta", "[DONE]", "gamma"] : List String).takeWhile
          (fun d => !(d == "[DONE]"))
    ∧ ((runStream ["alpha", "beta", "[DONE]", "gamma"]).closed = true
        ∧ (runStream ["alpha", "beta", "[DONE]", "gamma"]).isStreaming = false
        ∧ (runStream ["alpha", "beta", "[DONE]", "gamma"]).completeCount = 1) :=
  ⟨(stream_chunks_before_done ["alpha", "beta", "[DONE]", "gamma"]).1,
   (stream_chunks_before_done ["alpha", "beta", "[DONE]", "gamma"]).2.1
     (by decide)⟩

/-- C8: a discard (delete-pane) request is only ever issued for a pane that
is active, has no running agent and is absent from the merge queue; and when
every pane fails those conditions no request is made. -/
theorem discard_only_safe (panes : List Pane) (q : List MergeQueueItem) :
    (∀ pid, handleRemovePane panes q = some pid →
      ∃ p ∈ panes, p.pane_id = pid ∧ p.active = true
        ∧ p.agent_running = false
        ∧ q.any (fun m => m.pane_id == pid) = false)
    ∧ ((∀ p ∈ panes, p.active = true → p.agent_running = false →
          q.any (fun m => m.pane_id == p.pane_id) = true) →
        handleRemovePane panes q = none) := by
  constructor
  · intro pid hpid
    unfold handleRemovePane at hpid
    cases hcase : (((panes.filter
          (fun p => p.active && !p.agent_running)).filter
          (fun p => !(q.any (fun m => m.pane_id == p.pane_id)))).mergeSort
        (fun a b => b.pane_id ≤ a.pane_id)) with
    | nil =>
      rw [hcase] at hpid
      simp at hpid
    | cons a as =>
      rw [hcase] at hpid
      simp at hpid
      have hmem : a ∈ (((panes.filter
            (fun p => p.active && !p.agent_running)).filter
            (fun p => !(q.any (fun m => m.pane_id == p.pane_id)))).mergeSort
          (fun a b => b.pane_id ≤ a.pane_id)) := by
        rw [hcase]
        exact List.mem_cons_self a as
      rw [List.mem_mergeSort, List.mem_filter, List.mem_filter] at hmem
      obtain ⟨⟨hmem0, hcond1⟩, hcond2⟩ := hmem
      rw [Bool.and_eq_true] at hcond1
      refine ⟨a, hmem0, hpid, hcond1.1, by simpa using hcond1.2, ?_⟩
      rw [← hpid]
      simpa using hcond2
  · intro hall
    have hnil : ((panes.filter
        (fun p => p.active && !p.agent_running)).filter
        (fun p => !(q.any (fun m => m.pane_id == p.pane_id)))) = [] := by
      rw [List.filter_eq_nil_iff]
      intro p hp
      rw [List.mem_filter, Bool.and_eq_true] at hp
      obtain ⟨hmem, hc1, hc2⟩ := hp
      have hq := hall p hmem hc1 (by simpa using hc2)
      simp [hq]
    unfold handleRemovePane
    rw [hnil, List.mergeSort_nil]
    rfl

theorem discard_only_safe_witness :
    handleRemovePane [exPaneInactive, exPaneAgentRunning, exPaneQueued]
      [{ pane_id := 3, status := "queued" }] = none :=
  (discard_only_safe [exPaneInactive, exPaneAgentRunning, exPaneQueued]
    [{ pane_id := 3, status := "queued" }]).2 (by decide)

/-- C9: the remove-pane control of `FloatingControls` is rendered only when
more than one pane is active, so with at most one active pane it is absent
and the count can never drop from 1 to 0 through it. -/
theorem last_pane_protected (n : Nat) (h : n ≤ 1) :
    showRemove n = false ∧ (∀ m : Nat, showRemove m = true → 2 ≤ m) := by
  constructor
  · simp only [showRemove, gt_iff_lt, decide_eq_false_iff_not, not_lt]
    exact h
  · intro m hm
    simp only [showRemove, gt_iff_lt, decide_eq_true_eq] at hm
    omega

theorem last_pane_protected_witness :
    showRemove 1 = false ∧ (∀ m : Nat, showRemove m = true → 2 ≤ m) :=
  last_pane_protected 1 (by decide)

/-- C10: during a keep operation the enqueue is deduplicated against the
merge queue, the status poll makes at most `maxAttempts = 30` attempts, a
create-pane (replacement branch) request is issued at attempt `k` exactly
when that poll is the first to observe the pane inactive within the bound,
and on timeout (`none`) no attempt within the bound observed the pane
inactive and no branch is recreated. -/
theorem keep_poll_bounded (q : List MergeQueueItem) (pid : Nat)
    (obs : Nat → Option Pane) :
    (q.any (fun m => m.pane_id == pid) = true → handleKeepEnqueue q pid = q)
    ∧ (∀ k, waitForMerge obs = some k →
        k < maxAttempts ∧ observedInactive obs k
        ∧ ∀ j, j < k → ¬ observedInactive obs j)
    ∧ (waitForMerge obs = none ↔
        ∀ k, k < maxAttempts → ¬ observedInactive obs k) := by
  refine ⟨?_, ?_, ?_⟩
  · intro h
    simp [handleKeepEnqueue, h]
  · intro k hk
    unfold waitForMerge at hk
    obtain ⟨h1, h2, h3, h4⟩ := waitForMergeLoop_some obs maxAttempts 0 k hk
    exact ⟨by omega, h3, fun j hj => h4 j (Nat.zero_le j) hj⟩
  · unfold waitForMerge
    rw [waitForMergeLoop_none_iff obs maxAttempts 0]
    constructor
    · intro h k hk
      exact h k (Nat.zero_le k) (by omega)
    · intro h k _ hk
      exact h k (by omega)

theorem keep_poll_bounded_witness :
    handleKeepEnqueue [{ pane_id := 2, status := "queued" }] 2 =
      [{ pane_id := 2, status := "queued" }]
    ∧ waitForMerge (fun _ => none) = none :=
  ⟨(keep_poll_bounded [{ pane_id := 2, status := "queued" }] 2
      (fun _ => none)).1 (by decide),
   (keep_poll_bounded [{ pane_id := 2, status := "queued" }] 2
      (fun _ => none)).2.2.mpr
     (by
       intro k _
       rintro ⟨p, hp, _⟩
       cases hp)⟩

end VV
